import Mathlib

/-!
Verification of `crawlbase.go` (package crawlbase, BlackEspresso/crawlbase).

This file shallowly embeds the parts of `crawlbase.go` that the claims are
about:

* the crawler frontier `Crawler.Links : map[string]bool` is modelled as an
  association list `List (String × Bool)` with unique keys kept in insertion
  order (Go map iteration order is unspecified; we fix insertion order, which
  is one admissible order);
* `strings.Split` on a single-character separator and `strings.TrimSpace`
  are implemented structurally on `List Char` (`splitChar`, `trimChars`;
  `trimChars` trims the ASCII whitespace of `Char.isWhitespace` — the Unicode
  extras Go additionally trims do not occur in any input considered here);
* the external `net/url` library (`url.Parse`, `URL.ResolveReference`,
  `URL.Host`, `URL.String`) is not code of this repository; it is abstracted
  as a `UrlModel` parameter, with a concrete toy instance `simpleUrlModel`
  used to evaluate the theorems on the spec's example URLs;
* `goquery` document traversal is abstracted: a parsed document is a `Doc`
  listing its anchor/link/img/script/style elements with the attributes the
  source reads.
-/

/-- Splitting a character list at every occurrence of `c`.
Models Go `strings.Split(s, sep)` for a single-character `sep`:
`splitChar c [] = [[]]` just as `strings.Split("", sep) = [""]`. -/
def splitChar (c : Char) : List Char → List (List Char)
  | [] => [[]]
  | x :: xs =>
    let r := splitChar c xs
    if x = c then [] :: r
    else
      match r with
      | [] => [[x]]
      | y :: ys => (x :: y) :: ys

/-- Go `strings.TrimSpace` on a character list (ASCII whitespace). -/
def trimChars (s : List Char) : List Char :=
  ((s.dropWhile Char.isWhitespace).reverse.dropWhile Char.isWhitespace).reverse

/-- Go `strings.Split(s, sep)` for a one-character separator, as `String`s. -/
def stringSplit (c : Char) (s : String) : List String :=
  (splitChar c s.toList).map String.mk

/-- First-match lookup in an association list; models reading `m[k]` in a Go
map (`v, ok := m[k]`): `none` means the key is absent. -/
def lookupAssoc {β : Type} : List (String × β) → String → Option β
  | [], _ => none
  | p :: rest, u => if p.1 = u then some p.2 else lookupAssoc rest u

/-- Go map assignment `m[u] = b`: replace the first entry with key `u`, or
append a new entry when the key is absent. On unique-key lists this is
exactly map update. -/
def setAssoc {β : Type} : List (String × β) → String → β → List (String × β)
  | [], u, b => [(u, b)]
  | p :: rest, u, b => if p.1 = u then (u, b) :: rest else p :: setAssoc rest u b

/-! ## The crawler frontier: `Crawler.Links map[string]bool` -/

/-- Model of `Crawler.Links`. -/
abbrev LinksMap := List (String × Bool)

/-- Go `func (cw *Crawler) IsCrawled(url string) bool` (crawlbase.go:238). -/
def IsCrawled (m : LinksMap) (url : String) : Bool :=
  match lookupAssoc m url with
  | some true => true
  | _ => false

/-- Go `func (cw *Crawler) AddCrawledLinks(links []string)` (crawlbase.go:246). -/
def AddCrawledLinks (m : LinksMap) (links : List String) : LinksMap :=
  links.foldl (fun m newLink => setAssoc m newLink true) m

/-- Go `func (cw *Crawler) AddAllLinks(links []string)` (crawlbase.go:252). -/
def AddAllLinks (m : LinksMap) (links : List String) : LinksMap :=
  links.foldl (fun m newLink => setAssoc m newLink (IsCrawled m newLink)) m

/-- Go `func (c *Crawler) GetNextLink() (string, bool)` (crawlbase.go:356):
the first entry whose value is `false` (Go map iteration order is
unspecified; insertion order is the fixed choice of this model). -/
def GetNextLink (m : LinksMap) : Option String :=
  (m.find? (fun p => p.2 == false)).map (fun p => p.1)

/-! ## CSS style parsing and link visibility -/

/-- Go `func GetStylesCss(style string) map[string]string` (crawlbase.go:579):
split on `;`, split each piece on `:`, keep pieces with at least two parts,
trim key and value, last write wins. -/
def GetStylesCss (style : String) : List (String × String) :=
  (splitChar ';' style.toList).foldl (fun attrs k =>
    match splitChar ':' k with
    | key :: value :: _ =>
        setAssoc attrs (String.mk (trimChars key)) (String.mk (trimChars value))
    | _ => attrs) []

/-- Go `func IsVisibleCss(style string) bool` (crawlbase.go:593). -/
def IsVisibleCss (style : String) : Bool :=
  let styles := GetStylesCss style
  if lookupAssoc styles "display" = some "none" then false
  else if lookupAssoc styles "visibility" = some "hidden" then false
  else true

/-! ## URL abstraction (`net/url` is external to the repository) -/

/-- Abstraction of the `net/url` operations the source uses: `url.Parse`
(`parse`, `none` = parse error), `URL.ResolveReference` (`resolveReference`),
`URL.String` (`render`) and `URL.Host` (`host`). -/
structure UrlModel (α : Type) where
  parse : String → Option α
  resolveReference : α → α → α
  render : α → String
  host : α → String

/-- Go `func ToAbsUrl(baseurl *url.URL, weburl string) string` (crawlbase.go:736). -/
def ToAbsUrl {α : Type} (M : UrlModel α) (baseurl : α) (weburl : String) : String :=
  match M.parse weburl with
  | none => ""
  | some relurl => M.render (M.resolveReference baseurl relurl)

/-- Go `func ContainsString(arr []string, key string) bool` (crawlbase.go:347). -/
def ContainsString (arr : List String) (key : String) : Bool :=
  arr.any (fun x => x == key)

/-- Go `func contains(s []string, e string) bool` (crawlbase.go:630). -/
def contains (s : List String) (e : String) : Bool :=
  s.any (fun a => a == e)

/-! ## Hyperlink extraction -/

/-- An `<a>` element as `GetHrefs` reads it: its `href` and `style`
attributes (`none` = attribute absent). -/
structure Anchor where
  href : Option String
  style : Option String

/-- Go `func GetHrefs(doc, baseUrl, removeInvisibles)` (crawlbase.go:606),
transcribed exactly: an anchor is SKIPPED when
`removeInvisibles && hasStyle && IsVisibleCss(style)` — note the source
skips when `IsVisibleCss` is TRUE (crawlbase.go:615-618). -/
def GetHrefs {α : Type} (M : UrlModel α) (anchors : List Anchor) (baseUrl : α)
    (removeInvisibles : Bool) : List String :=
  anchors.foldl (fun hrefs a =>
    match a.href with
    | none => hrefs
    | some href =>
      let skip : Bool :=
        match a.style with
        | some style => removeInvisibles && IsVisibleCss style
        | none => false
      if skip then hrefs
      else
        let fullUrl := ToAbsUrl M baseUrl href
        if contains hrefs fullUrl then hrefs else hrefs ++ [fullUrl]) []

/-! ## A concrete toy URL model, for evaluating theorems on examples.
`simpleParse` fails exactly on strings starting with `::`; absolute-path
references are resolved against the base URL's scheme and host. -/

def simpleHost (u : String) : String :=
  ((splitChar '/' u.toList).map String.mk).getD 2 ""

def simpleResolve (base rel : String) : String :=
  match rel.toList with
  | '/' :: _ =>
    let parts := (splitChar '/' base.toList).map String.mk
    parts.getD 0 "" ++ "//" ++ parts.getD 2 "" ++ rel
  | _ => rel

def simpleParse (s : String) : Option String :=
  match s.toList with
  | ':' :: ':' :: _ => none
  | _ => some s

def simpleUrlModel : UrlModel String where
  parse := simpleParse
  resolveReference := simpleResolve
  render := id
  host := simpleHost

/-! ## Resource extraction (`GetRessources`) -/

/-- Go `type Ressource struct` (crawlbase.go:83). `Rtype` is the Go field
`Type` (a reserved word in Lean). -/
structure Ressource where
  Url : String := ""
  Rtype : String := ""
  Rel : String := ""
  Tag : String := ""
deriving DecidableEq

/-- A `<link>` element as `GetRessources` reads it. -/
structure LinkTag where
  href : Option String
  linkType : Option String
  rel : Option String

/-- An `<img>`, `<script>` or `<style>` element as `GetRessources` reads it
(`img` never has its `type` attribute read). -/
structure SrcTag where
  src : Option String
  srcType : Option String

/-- A parsed HTML document, as the goquery traversals of the source read
it: the element lists in document order. -/
structure Doc where
  anchors : List Anchor := []
  links : List LinkTag := []
  imgs : List SrcTag := []
  scripts : List SrcTag := []
  styles : List SrcTag := []

/-- The `doc.Find("link").Each` body of `GetRessources` (crawlbase.go:527):
a `<link>` is always recorded, each attribute copied only when present. -/
def linkRessource {α : Type} (M : UrlModel α) (baseUrl : α) (l : LinkTag) : Ressource :=
  { Tag := "link"
    Url := match l.href with | some href => ToAbsUrl M baseUrl href | none => ""
    Rtype := match l.linkType with | some t => t | none => ""
    Rel := match l.rel with | some r => r | none => "" }

/-- The `doc.Find("img").Each` body (crawlbase.go:541): an `<img>` is always
recorded — this branch has NO early return when `src` is absent. -/
def imgRessource {α : Type} (M : UrlModel α) (baseUrl : α) (s : SrcTag) : Ressource :=
  { Tag := "img"
    Url := match s.src with | some src => ToAbsUrl M baseUrl src | none => "" }

/-- The `doc.Find("script").Each` body (crawlbase.go:550): a `<script>`
without `src` is skipped (early `return`). -/
def scriptRessource {α : Type} (M : UrlModel α) (baseUrl : α) (s : SrcTag) : Option Ressource :=
  match s.src with
  | none => none
  | some src => some
      { Tag := "script"
        Url := ToAbsUrl M baseUrl src
        Rtype := match s.srcType with | some t => t | none => "" }

/-- The `doc.Find("style").Each` body (crawlbase.go:563): a `<style>`
without `src` is skipped (early `return`). -/
def styleRessource {α : Type} (M : UrlModel α) (baseUrl : α) (s : SrcTag) : Option Ressource :=
  match s.src with
  | none => none
  | some src => some
      { Tag := "style"
        Url := ToAbsUrl M baseUrl src
        Rtype := match s.srcType with | some t => t | none => "" }

/-- Go `func GetRessources(doc, baseUrl) []Ressource` (crawlbase.go:525): the
four traversals in source order. -/
def GetRessources {α : Type} (M : UrlModel α) (doc : Doc) (baseUrl : α) : List Ressource :=
  doc.links.map (linkRessource M baseUrl)
    ++ doc.imgs.map (imgRessource M baseUrl)
    ++ doc.scripts.filterMap (scriptRessource M baseUrl)
    ++ doc.styles.filterMap (styleRessource M baseUrl)

/-! ## Domain scoping -/

/-- Go `func GetDomain(host string) string` (crawlbase.go:412): the last two
dot-separated labels, or the whole host if fewer. -/
def GetDomain (host : String) : String :=
  let splitted := stringSplit '.' host
  let lenSplitted := splitted.length
  if lenSplitted ≥ 2 then
    splitted.getD (lenSplitted - 2) "" ++ "." ++ splitted.getD (lenSplitted - 1) ""
  else if lenSplitted ≥ 1 then
    splitted.getD 0 ""
  else host

/-- Go `func IsSameDomain(baseUrl, testUrl *url.URL) bool` (crawlbase.go:408). -/
def IsSameDomain {α : Type} (M : UrlModel α) (baseUrl testUrl : α) : Bool :=
  GetDomain (M.host baseUrl) == GetDomain (M.host testUrl)

/-- Go `func (cw *Crawler) RemoveLinksNotSameHost(baseUrl *url.URL)`
(crawlbase.go:399): delete every frontier key that fails to parse or whose
registrable domain differs from the base URL's. -/
def RemoveLinksNotSameHost {α : Type} (M : UrlModel α) (m : LinksMap) (baseUrl : α) :
    LinksMap :=
  m.filter (fun p =>
    match M.parse p.1 with
    | none => false
    | some pUrl => IsSameDomain M baseUrl pUrl)

/-- Go `func (cw *Crawler) AddLinksMatchingDomain(links []string, startUrl *url.URL)`
(crawlbase.go:259). -/
def AddLinksMatchingDomain {α : Type} (M : UrlModel α) (m : LinksMap)
    (links : List String) (startUrl : α) : LinksMap :=
  links.foldl (fun m newLink =>
    match M.parse newLink with
    | none => m
    | some newLinkUrl =>
      if IsSameDomain M startUrl newLinkUrl then AddAllLinks m [newLink] else m) m

/-- The condition under which `AddLinksMatchingDomain` admits a link: it
parses and shares the seed's registrable domain. -/
def matchesSeedDomain {α : Type} (M : UrlModel α) (startUrl : α) (link : String) : Bool :=
  match M.parse link with
  | none => false
  | some u => IsSameDomain M startUrl u

/-! ## Page assembly and the redirect hyperlink -/

/-- Go `type ResponseInfo struct` (crawlbase.go:56), the fields the claims
touch. -/
structure RespInfo where
  Hrefs : List String := []
  Ressources : List Ressource := []

/-- Go `type PageResponse struct` (crawlbase.go:40): its status code and the
`Location` response header (`Header.Get("Location")`, empty when absent). -/
structure PageResponse where
  StatusCode : Int := 0
  locationHeader : String := ""

/-- Go `type Page struct` (crawlbase.go:26), the fields the claims touch. -/
structure Page where
  URL : String := ""
  Response : PageResponse := {}
  RespInfo : RespInfo := {}
  Error : String := ""

/-- Go `func LocationFromPage(page *Page, baseUrl *url.URL) (bool, string)`
(crawlbase.go:424). -/
def LocationFromPage {α : Type} (M : UrlModel α) (page : Page) (baseUrl : α) :
    Bool × String :=
  if 300 ≤ page.Response.StatusCode ∧ page.Response.StatusCode < 308 then
    (true, ToAbsUrl M baseUrl page.Response.locationHeader)
  else (false, "")

/-- Go `func PageFromData(data []byte, url *url.URL, includeHiddenLinks bool) *Page`
(crawlbase.go:275), for a body that parses into `doc` (forms and the
goquery error branch are outside the claims and omitted). -/
def PageFromData {α : Type} (M : UrlModel α) (doc : Doc) (url : α)
    (includeHiddenLinks : Bool) : Page :=
  { RespInfo :=
      { Hrefs := GetHrefs M doc.anchors url (!includeHiddenLinks)
        Ressources := GetRessources M doc url } }

/-- Go `func (c *Crawler) PageFromResponse(req, res, timeDur) *Page`
(crawlbase.go:299) on a non-nil response whose body read succeeds and
parses into `doc`: build the page from the body, record the status code and
`Location` header, then append the resolved redirect target to
`RespInfo.Hrefs` when `LocationFromPage` reports a redirect and the target
is not already present (crawlbase.go:319-325).  Timing, MIME and request
metadata are outside the claims. -/
def PageFromResponse {α : Type} (M : UrlModel α) (doc : Doc) (reqUrl : α)
    (includeHiddenLinks : Bool) (statusCode : Int) (locationHeader : String) : Page :=
  let page := PageFromData M doc reqUrl includeHiddenLinks
  let page := { page with
    Response := { StatusCode := statusCode, locationHeader := locationHeader } }
  let redirect := LocationFromPage M page reqUrl
  let page :=
    if redirect.1 then
      if ContainsString page.RespInfo.Hrefs redirect.2 then page
      else { page with
        RespInfo := { page.RespInfo with Hrefs := page.RespInfo.Hrefs ++ [redirect.2] } }
    else page
  { page with URL := M.render reqUrl }

/-! ## `GetPage` error contract -/

/-- Go `func (c *Crawler) GetPage(crawlUrl, method string) (*Page, error)`
(crawlbase.go:135).  `newRequest` models `http.NewRequest` (`Except.error` =
request construction fails); `doRequest` models `c.Client.Do` returning a
possibly-nil response and a possibly-nil error; `isRedirectError` models the
`*url.Error`-wrapping-`ErrorCheckRedirect` test of crawlbase.go:153-154;
`mkPage` models `c.PageFromResponse`.  The Go result pair `(*Page, error)`
is `(Option Page, Option String)`. -/
def GetPage {ρ σ : Type} (newRequest : Except String ρ)
    (doRequest : ρ → Option σ × Option String) (isRedirectError : String → Bool)
    (mkPage : ρ → Option σ → Page) : Option Page × Option String :=
  match newRequest with
  | .error e => (none, some e)
  | .ok req =>
    let r := doRequest req
    let page := mkPage req r.1
    match r.2 with
    | some e =>
      if isRedirectError e then (some page, none)
      else (some { page with Error := e }, some e)
    | none => (some page, none)

/-! ## Resuming from storage: `LoadPages` -/

/-- The body of the per-file loop of `LoadPages` (crawlbase.go:376-395) on a
successfully loaded page `p`: recompute the URL through `BeforeCrawlFn`
(its error is discarded: `url, _ = cw.BeforeCrawlFn(url)`), recompute the
links through `AfterCrawlFn` (error likewise discarded), mark the URL
visited via `AddCrawledLinks`, add the links via `AddAllLinks` — with no
domain filtering. -/
def processLoadedPage (before : Option (String → String))
    (after : Option (Page → List String)) (m : LinksMap) (p : Page) : LinksMap :=
  let url := match before with | some fn => fn p.URL | none => p.URL
  let links := match after with | some fn => fn p | none => p.RespInfo.Hrefs
  AddAllLinks (AddCrawledLinks m [url]) links

/-- The file loop of `LoadPages` (crawlbase.go:374-396): each list element
models `LoadPage(file, false)` (`Except.error` = the per-file load error).
On the first failing file the function returns the error and the number of
files fully processed so far. -/
def loadPagesLoop (before : Option (String → String))
    (after : Option (Page → List String)) :
    List (Except String Page) → LinksMap → Nat → Nat × Option String × LinksMap
  | [], m, readCount => (readCount, none, m)
  | (Except.error e) :: _, m, readCount => (readCount, some e, m)
  | (Except.ok p) :: files, m, readCount =>
    loadPagesLoop before after files (processLoadedPage before after m p) (readCount + 1)

/-- Go `func (cw *Crawler) LoadPages(folderpath string) (int, error)`
(crawlbase.go:365), starting from `readCount := 0`. -/
def LoadPages (before : Option (String → String))
    (after : Option (Page → List String)) (files : List (Except String Page))
    (m : LinksMap) : Nat × Option String × LinksMap :=
  loadPagesLoop before after files m 0

/-- A concrete stored record used to evaluate `LoadPages`. -/
def samplePage : Page :=
  { URL := "http://ex.com/a", RespInfo := { Hrefs := ["http://ex.com/b"] } }

/-! ## Termination of the `FetchSites` crawl loop -/

/-- One iteration of the `FetchSites` loop (crawlbase.go:177-235), without
hooks and without domain scoping: take the next unvisited link, mark it
visited (`cw.Links[urlStr] = true`, crawlbase.go:201), fetch it — the
static link graph `graph` gives the page's hyperlinks — and add them via
`AddAllLinks`; `none` models the `return nil` when no link is left
(crawlbase.go:188-191). -/
def crawlStep (graph : String → List String) (m : LinksMap) : Option LinksMap :=
  match GetNextLink m with
  | none => none
  | some u => some (AddAllLinks (setAssoc m u true) (graph u))

/-- The `FetchSites` loop halts within `n` iterations from frontier `m`. -/
def crawlTerminatesIn (graph : String → List String) : Nat → LinksMap → Bool
  | 0, m => (GetNextLink m).isNone
  | n + 1, m =>
    match crawlStep graph m with
    | none => true
    | some m2 => crawlTerminatesIn graph n m2

/-- The number of URLs of the finite universe `U` not yet marked visited. -/
def pendingCount (U : Finset String) (m : LinksMap) : Nat :=
  (U.filter (fun u => lookupAssoc m u ≠ some true)).card

/-- A two-page cyclic site used to evaluate the termination theorem. -/
def sampleGraph (u : String) : List String :=
  if u = "http://site/a" then ["http://site/b"]
  else if u = "http://site/b" then ["http://site/a"]
  else []

/-! ## Theorems -/

theorem lookupAssoc_setAssoc {β : Type} (m : List (String × β)) (u : String) (b : β)
    (k : String) :
    lookupAssoc (setAssoc m u b) k = if k = u then some b else lookupAssoc m k := by
  induction m with
  | nil =>
    simp only [setAssoc, lookupAssoc]
    by_cases h : u = k
    · simp [h]
    · have h2 : ¬ k = u := fun hh => h hh.symm
      simp [h, h2]
  | cons p rest ih =>
    by_cases hp : p.1 = u
    · by_cases hk : u = k
      · simp [setAssoc, lookupAssoc, hp, hk]
      · have hk2 : ¬ k = u := fun h => hk h.symm
        have hpk : ¬ p.1 = k := fun h => hk (hp.symm.trans h)
        simp [setAssoc, lookupAssoc, hp, hk, hk2, hpk]
    · by_cases hpk : p.1 = k
      · have hk2 : ¬ k = u := fun h => hp (hpk.trans h)
        simp [setAssoc, lookupAssoc, hp, hpk, hk2]
      · simp [setAssoc, lookupAssoc, hp, hpk, ih]

theorem mem_setAssoc {β : Type} (m : List (String × β)) (u : String) (b : β)
    (q : String × β) (hq : q ∈ setAssoc m u b) : q.1 = u ∨ q ∈ m := by
  induction m with
  | nil =>
    simp [setAssoc] at hq
    subst hq; exact Or.inl rfl
  | cons p rest ih =>
    by_cases hp : p.1 = u
    · simp [setAssoc, hp] at hq
      rcases hq with hq | hq
      · subst hq; exact Or.inl rfl
      · exact Or.inr (List.mem_cons_of_mem _ hq)
    · simp [setAssoc, hp] at hq
      rcases hq with hq | hq
      · exact Or.inr (by simp [hq])
      · rcases ih hq with h | h
        · exact Or.inl h
        · exact Or.inr (List.mem_cons_of_mem _ h)

theorem lookupAssoc_AddAllLinks (ls : List String) (m : LinksMap) (k : String) :
    lookupAssoc (AddAllLinks m ls) k =
      match lookupAssoc m k with
      | some b => some b
      | none => if k ∈ ls then some false else none := by
  induction ls generalizing m with
  | nil =>
    cases hm : lookupAssoc m k with
    | none => simp [AddAllLinks, hm]
    | some b => simp [AddAllLinks, hm]
  | cons l ls ih =>
    have step : AddAllLinks m (l :: ls) = AddAllLinks (setAssoc m l (IsCrawled m l)) ls := rfl
    rw [step, ih, lookupAssoc_setAssoc]
    by_cases hk : k = l
    · subst hk
      cases hm : lookupAssoc m k with
      | none => simp [IsCrawled, hm]
      | some b => cases b <;> simp [IsCrawled, hm]
    · cases hm : lookupAssoc m k with
      | none => simp [hm, hk]
      | some b => simp [hm, hk]

theorem lookupAssoc_AddCrawledLinks (ls : List String) (m : LinksMap) (k : String) :
    lookupAssoc (AddCrawledLinks m ls) k =
      if k ∈ ls then some true else lookupAssoc m k := by
  induction ls generalizing m with
  | nil => simp [AddCrawledLinks]
  | cons l ls ih =>
    have step : AddCrawledLinks m (l :: ls) = AddCrawledLinks (setAssoc m l true) ls := rfl
    rw [step, ih, lookupAssoc_setAssoc]
    by_cases hmem : k ∈ ls
    · simp [hmem]
    · by_cases hk : k = l <;> simp [hmem, hk]

theorem mem_AddAllLinks (ls : List String) (m : LinksMap) (q : String × Bool)
    (hq : q ∈ AddAllLinks m ls) : q.1 ∈ ls ∨ q ∈ m := by
  induction ls generalizing m with
  | nil => exact Or.inr hq
  | cons l ls ih =>
    have step : AddAllLinks m (l :: ls) = AddAllLinks (setAssoc m l (IsCrawled m l)) ls := rfl
    rw [step] at hq
    rcases ih _ hq with h | h
    · exact Or.inl (List.mem_cons_of_mem _ h)
    · rcases mem_setAssoc _ _ _ _ h with h2 | h2
      · exact Or.inl (by simp [h2])
      · exact Or.inr h2

/-- C3: `AddAllLinks` inserts absent URLs with visited=false, leaves the
visited flag of present URLs unchanged (so `IsCrawled` never flips back to
false), and repeated calls produce the same key set as one call with the
concatenated URL list. -/
theorem AddAllLinks_frontier_spec (m : LinksMap) (ls l1 l2 : List String) (k u : String) :
    (lookupAssoc (AddAllLinks m ls) k =
      match lookupAssoc m k with
      | some b => some b
      | none => if k ∈ ls then some false else none)
    ∧ (IsCrawled m u = true → IsCrawled (AddAllLinks m ls) u = true)
    ∧ (lookupAssoc (AddAllLinks (AddAllLinks m l1) l2) k = none ↔
        lookupAssoc (AddAllLinks m (l1 ++ l2)) k = none) := by
  refine ⟨lookupAssoc_AddAllLinks ls m k, ?_, ?_⟩
  · intro hu
    have hm : lookupAssoc m u = some true := by
      unfold IsCrawled at hu
      cases hm : lookupAssoc m u with
      | none => rw [hm] at hu; simp at hu
      | some b => cases b with
        | false => rw [hm] at hu; simp at hu
        | true => rfl
    unfold IsCrawled
    rw [lookupAssoc_AddAllLinks, hm]
  · rw [lookupAssoc_AddAllLinks, lookupAssoc_AddAllLinks, lookupAssoc_AddAllLinks]
    cases hm : lookupAssoc m k with
    | some b => simp
    | none =>
      by_cases h1 : k ∈ l1
      · simp [h1]
      · by_cases h2 : k ∈ l2 <;> simp [h1, h2]

/-- Witness for C3 at a concrete frontier. -/
theorem AddAllLinks_frontier_spec_witness :
    IsCrawled (AddAllLinks [("a", true)] ["a", "b"]) "a" = true :=
  (AddAllLinks_frontier_spec [("a", true)] ["a", "b"] [] [] "a" "a").2.1 (by decide)

/-- C1 (code bug, crawlbase.go:615-618): with invisible-link filtering
enabled, `GetHrefs` KEEPS the `display:none` anchor and DROPS the
`display:block` anchor — the filter condition is inverted: the source
returns early (skips the link) when `IsVisibleCss(style)` is true. -/
theorem GetHrefs_hidden_filter_inverted :
    GetHrefs simpleUrlModel
        [⟨some "/h", some "display:none"⟩, ⟨some "/b", some "display:block"⟩]
        "http://ex.com/old" true = ["http://ex.com/h"]
    ∧ IsVisibleCss "display:none" = false
    ∧ IsVisibleCss "display:block" = true := by decide

theorem length_filter_map_of_true {γ δ : Type} (l : List γ) (f : γ → δ) (p : δ → Bool)
    (h : ∀ x, p (f x) = true) : ((l.map f).filter p).length = l.length := by
  induction l with
  | nil => rfl
  | cons x xs ih => simp [List.filter_cons, h x, ih]

theorem length_filter_map_of_false {γ δ : Type} (l : List γ) (f : γ → δ) (p : δ → Bool)
    (h : ∀ x, p (f x) = false) : ((l.map f).filter p).length = 0 := by
  induction l with
  | nil => rfl
  | cons x xs ih => simp [List.filter_cons, h x, ih]

theorem length_filter_filterMap_of_true {γ δ : Type} (l : List γ) (f : γ → Option δ)
    (p : δ → Bool) (h : ∀ x y, f x = some y → p y = true) :
    ((l.filterMap f).filter p).length = (l.filter (fun x => (f x).isSome)).length := by
  induction l with
  | nil => rfl
  | cons x xs ih =>
    cases hx : f x with
    | none => simp [List.filterMap_cons, hx, List.filter_cons, ih]
    | some y => simp [List.filterMap_cons, hx, List.filter_cons, h x y hx, ih]

theorem length_filter_filterMap_of_false {γ δ : Type} (l : List γ) (f : γ → Option δ)
    (p : δ → Bool) (h : ∀ x y, f x = some y → p y = false) :
    ((l.filterMap f).filter p).length = 0 := by
  induction l with
  | nil => rfl
  | cons x xs ih =>
    cases hx : f x with
    | none => simp [List.filterMap_cons, hx, ih]
    | some y => simp [List.filterMap_cons, hx, List.filter_cons, h x y hx, ih]

/-- C2 counterexample: an `<img>` element carrying no `src` attribute DOES
yield a resource (with empty `Url`): the img branch of `GetRessources`
has no early return (crawlbase.go:541-548). -/
theorem GetRessources_img_without_src_counterexample :
    GetRessources simpleUrlModel { imgs := [⟨none, none⟩] } "http://ex.com/"
      = [⟨"", "", "", "img"⟩] := by decide

/-- C2 (amended): `GetRessources` records one `Tag="link"` resource per
`<link>` element and one `Tag="img"` resource per `<img>` element, with or
without href/src, while `<script>` and `<style>` elements yield a resource
exactly when they carry a `src` attribute. -/
theorem GetRessources_per_tag_counts {α : Type} (M : UrlModel α) (doc : Doc) (baseUrl : α) :
    ((GetRessources M doc baseUrl).filter (fun r => r.Tag == "link")).length = doc.links.length
    ∧ ((GetRessources M doc baseUrl).filter (fun r => r.Tag == "img")).length = doc.imgs.length
    ∧ ((GetRessources M doc baseUrl).filter (fun r => r.Tag == "script")).length
        = (doc.scripts.filter (fun s => s.src.isSome)).length
    ∧ ((GetRessources M doc baseUrl).filter (fun r => r.Tag == "style")).length
        = (doc.styles.filter (fun s => s.src.isSome)).length := by
  have hscr : ∀ (s : SrcTag) (y : Ressource),
      scriptRessource M baseUrl s = some y → y.Tag = "script" := by
    intro s y hy
    cases hs : s.src with
    | none => rw [scriptRessource, hs] at hy; exact absurd hy (by simp)
    | some src =>
      rw [scriptRessource, hs] at hy
      simp only [Option.some.injEq] at hy
      rw [← hy]
  have hsty : ∀ (s : SrcTag) (y : Ressource),
      styleRessource M baseUrl s = some y → y.Tag = "style" := by
    intro s y hy
    cases hs : s.src with
    | none => rw [styleRessource, hs] at hy; exact absurd hy (by simp)
    | some src =>
      rw [styleRessource, hs] at hy
      simp only [Option.some.injEq] at hy
      rw [← hy]
  have hLinkTag : ∀ x : LinkTag, (linkRessource M baseUrl x).Tag = "link" := fun x => rfl
  have hImgTag : ∀ x : SrcTag, (imgRessource M baseUrl x).Tag = "img" := fun x => rfl
  have e11 : ((doc.links.map (linkRessource M baseUrl)).filter
      (fun r => r.Tag == "link")).length = doc.links.length :=
    length_filter_map_of_true _ _ _ (fun x => by rw [hLinkTag x]; rfl)
  have e12 : ((doc.imgs.map (imgRessource M baseUrl)).filter
      (fun r => r.Tag == "link")).length = 0 :=
    length_filter_map_of_false _ _ _ (fun x => by rw [hImgTag x]; decide)
  have e13 : ((doc.scripts.filterMap (scriptRessource M baseUrl)).filter
      (fun r => r.Tag == "link")).length = 0 :=
    length_filter_filterMap_of_false _ _ _ (fun s y hy => by rw [hscr s y hy]; decide)
  have e14 : ((doc.styles.filterMap (styleRessource M baseUrl)).filter
      (fun r => r.Tag == "link")).length = 0 :=
    length_filter_filterMap_of_false _ _ _ (fun s y hy => by rw [hsty s y hy]; decide)
  have e21 : ((doc.links.map (linkRessource M baseUrl)).filter
      (fun r => r.Tag == "img")).length = 0 :=
    length_filter_map_of_false _ _ _ (fun x => by rw [hLinkTag x]; decide)
  have e22 : ((doc.imgs.map (imgRessource M baseUrl)).filter
      (fun r => r.Tag == "img")).length = doc.imgs.length :=
    length_filter_map_of_true _ _ _ (fun x => by rw [hImgTag x]; rfl)
  have e23 : ((doc.scripts.filterMap (scriptRessource M baseUrl)).filter
      (fun r => r.Tag == "img")).length = 0 :=
    length_filter_filterMap_of_false _ _ _ (fun s y hy => by rw [hscr s y hy]; decide)
  have e24 : ((doc.styles.filterMap (styleRessource M baseUrl)).filter
      (fun r => r.Tag == "img")).length = 0 :=
    length_filter_filterMap_of_false _ _ _ (fun s y hy => by rw [hsty s y hy]; decide)
  have e31 : ((doc.links.map (linkRessource M baseUrl)).filter
      (fun r => r.Tag == "script")).length = 0 :=
    length_filter_map_of_false _ _ _ (fun x => by rw [hLinkTag x]; decide)
  have e32 : ((doc.imgs.map (imgRessource M baseUrl)).filter
      (fun r => r.Tag == "script")).length = 0 :=
    length_filter_map_of_false _ _ _ (fun x => by rw [hImgTag x]; decide)
  have e33 : ((doc.scripts.filterMap (scriptRessource M baseUrl)).filter
      (fun r => r.Tag == "script")).length
        = (doc.scripts.filter (fun s => s.src.isSome)).length := by
    rw [length_filter_filterMap_of_true _ _ _ (fun s y hy => by rw [hscr s y hy]; rfl)]
    congr 1
    apply List.filter_congr
    intro x _
    cases hs : x.src <;> simp [scriptRessource, hs]
  have e34 : ((doc.styles.filterMap (styleRessource M baseUrl)).filter
      (fun r => r.Tag == "script")).length = 0 :=
    length_filter_filterMap_of_false _ _ _ (fun s y hy => by rw [hsty s y hy]; decide)
  have e41 : ((doc.links.map (linkRessource M baseUrl)).filter
      (fun r => r.Tag == "style")).length = 0 :=
    length_filter_map_of_false _ _ _ (fun x => by rw [hLinkTag x]; decide)
  have e42 : ((doc.imgs.map (imgRessource M baseUrl)).filter
      (fun r => r.Tag == "style")).length = 0 :=
    length_filter_map_of_false _ _ _ (fun x => by rw [hImgTag x]; decide)
  have e43 : ((doc.scripts.filterMap (scriptRessource M baseUrl)).filter
      (fun r => r.Tag == "style")).length = 0 :=
    length_filter_filterMap_of_false _ _ _ (fun s y hy => by rw [hscr s y hy]; decide)
  have e44 : ((doc.styles.filterMap (styleRessource M baseUrl)).filter
      (fun r => r.Tag == "style")).length
        = (doc.styles.filter (fun s => s.src.isSome)).length := by
    rw [length_filter_filterMap_of_true _ _ _ (fun s y hy => by rw [hsty s y hy]; rfl)]
    congr 1
    apply List.filter_congr
    intro x _
    cases hs : x.src <;> simp [styleRessource, hs]
  refine ⟨?_, ?_, ?_, ?_⟩ <;>
    simp only [GetRessources, List.filter_append, List.length_append]
  · rw [e11, e12, e13, e14]
    omega
  · rw [e21, e22, e23, e24]
    omega
  · rw [e31, e32, e33, e34]
    omega
  · rw [e41, e42, e43, e44]
    omega

/-- C5: with domain scoping, `AddLinksMatchingDomain` extends the frontier
by exactly the discovered links that parse and whose registrable domain
(`GetDomain`) equals the seed's, inserted unvisited; present entries are
untouched.  The `GetDomain` conjuncts evaluate the spec's example hosts. -/
theorem AddLinksMatchingDomain_spec {α : Type} (M : UrlModel α) (m : LinksMap)
    (links : List String) (startUrl : α) (k : String) :
    (lookupAssoc (AddLinksMatchingDomain M m links startUrl) k =
      match lookupAssoc m k with
      | some b => some b
      | none =>
        if k ∈ links ∧ matchesSeedDomain M startUrl k = true then some false else none)
    ∧ GetDomain "a.example.com" = "example.com"
    ∧ GetDomain "sub.example.com" = "example.com"
    ∧ GetDomain "b.other.com" = "other.com" := by
  refine ⟨?_, by decide, by decide, by decide⟩
  induction links generalizing m with
  | nil => cases hm : lookupAssoc m k <;> simp [AddLinksMatchingDomain, hm]
  | cons l ls ih =>
    have step : AddLinksMatchingDomain M m (l :: ls) startUrl
        = AddLinksMatchingDomain M
            (match M.parse l with
              | none => m
              | some u => if IsSameDomain M startUrl u then AddAllLinks m [l] else m)
            ls startUrl := rfl
    rw [step, ih]
    cases hp : M.parse l with
    | none =>
      by_cases hk : k = l
      · subst hk
        cases hm : lookupAssoc m k <;>
          simp [hm, matchesSeedDomain, hp]
      · cases hm : lookupAssoc m k <;>
          simp [hm, hk, matchesSeedDomain, hp]
    | some u =>
      cases hsd : IsSameDomain M startUrl u with
      | false =>
        by_cases hk : k = l
        · subst hk
          cases hm : lookupAssoc m k <;>
            simp [hm, matchesSeedDomain, hp, hsd]
        · cases hm : lookupAssoc m k <;>
            simp [hm, hk, matchesSeedDomain, hp, hsd]
      | true =>
        by_cases hk : k = l
        · subst hk
          cases hm : lookupAssoc m k <;>
            simp [hm, matchesSeedDomain, hp, hsd, lookupAssoc_AddAllLinks]
        · cases hm : lookupAssoc m k <;>
            simp [hm, hk, matchesSeedDomain, hp, hsd, lookupAssoc_AddAllLinks]

/-- C6: `RemoveLinksNotSameHost` keeps exactly the frontier entries that
parse and share the scope URL's registrable domain, with their visited flag
unchanged; everything else (different registrable domain, or unparseable)
is deleted.  The two concrete conjuncts evaluate the comparison on raw
label strings: `EXAMPLE.com` is removed against scope `example.com`
(case-sensitive, no normalization) while `sub.example.com` survives with
its flag intact. -/
theorem RemoveLinksNotSameHost_spec {α : Type} (M : UrlModel α) (m : LinksMap)
    (baseUrl : α) (k : String) :
    (lookupAssoc (RemoveLinksNotSameHost M m baseUrl) k =
      match M.parse k with
      | none => none
      | some pUrl => if IsSameDomain M baseUrl pUrl then lookupAssoc m k else none)
    ∧ lookupAssoc (RemoveLinksNotSameHost simpleUrlModel [("http://EXAMPLE.com/a", true)]
        "http://example.com/") "http://EXAMPLE.com/a" = none
    ∧ lookupAssoc (RemoveLinksNotSameHost simpleUrlModel [("http://sub.example.com/a", true)]
        "http://example.com/") "http://sub.example.com/a" = some true := by
  refine ⟨?_, by decide, by decide⟩
  induction m with
  | nil =>
    cases hp : M.parse k with
    | none => simp [RemoveLinksNotSameHost, lookupAssoc]
    | some pUrl => simp [RemoveLinksNotSameHost, lookupAssoc, ite_self]
  | cons p rest ih =>
    by_cases hpk : p.1 = k
    · cases hp : M.parse k with
      | none =>
        have hfilter : (match M.parse p.1 with
            | none => false
            | some pUrl => IsSameDomain M baseUrl pUrl) = false := by
          rw [hpk, hp]
        simp only [RemoveLinksNotSameHost, List.filter_cons, hfilter] at ih ⊢
        rw [if_neg (by decide), ih, hp]
      | some pUrl =>
        cases hsd : IsSameDomain M baseUrl pUrl with
        | false =>
          have hfilter : (match M.parse p.1 with
              | none => false
              | some pUrl => IsSameDomain M baseUrl pUrl) = false := by
            rw [hpk, hp]
            simp [hsd]
          simp only [RemoveLinksNotSameHost, List.filter_cons, hfilter] at ih ⊢
          rw [if_neg (by decide), ih, hp]
          simp [hsd]
        | true =>
          have hfilter : (match M.parse p.1 with
              | none => false
              | some pUrl => IsSameDomain M baseUrl pUrl) = true := by
            rw [hpk, hp]
            simp [hsd]
          simp only [RemoveLinksNotSameHost, List.filter_cons, hfilter] at ih ⊢
          rw [if_pos (by decide)]
          simp [lookupAssoc, hpk, hp, hsd]
    · cases hfilter : (match M.parse p.1 with
          | none => false
          | some pUrl => IsSameDomain M baseUrl pUrl) with
      | false =>
        simp only [RemoveLinksNotSameHost, List.filter_cons, hfilter] at ih ⊢
        rw [if_neg (by decide), ih]
        have hR : lookupAssoc (p :: rest) k = lookupAssoc rest k := by
          simp [lookupAssoc, hpk]
        simp only [hR]
      | true =>
        simp only [RemoveLinksNotSameHost, List.filter_cons, hfilter] at ih ⊢
        rw [if_pos (by decide)]
        have hL : lookupAssoc (p :: List.filter (fun p =>
            match M.parse p.1 with
            | none => false
            | some pUrl => IsSameDomain M baseUrl pUrl) rest) k
            = lookupAssoc (List.filter (fun p =>
            match M.parse p.1 with
            | none => false
            | some pUrl => IsSameDomain M baseUrl pUrl) rest) k := by
          simp [lookupAssoc, hpk]
        have hR : lookupAssoc (p :: rest) k = lookupAssoc rest k := by
          simp [lookupAssoc, hpk]
        rw [hL, ih]
        simp only [hR]

/-- C4: for a response status in `[300,308)` the `Location` header resolved
against the request URL is appended to `RespInfo.Hrefs` unless already
present (even when the body has no anchors); outside that range the
hyperlink list is exactly the one extracted from the body. -/
theorem PageFromResponse_redirect_href {α : Type} (M : UrlModel α) (doc : Doc)
    (reqUrl : α) (ih : Bool) (s : Int) (loc : String) :
    ((300 ≤ s ∧ s < 308) →
      (PageFromResponse M doc reqUrl ih s loc).RespInfo.Hrefs =
        (if ContainsString (GetHrefs M doc.anchors reqUrl (!ih)) (ToAbsUrl M reqUrl loc)
          then GetHrefs M doc.anchors reqUrl (!ih)
          else GetHrefs M doc.anchors reqUrl (!ih) ++ [ToAbsUrl M reqUrl loc]))
    ∧ (¬(300 ≤ s ∧ s < 308) →
      (PageFromResponse M doc reqUrl ih s loc).RespInfo.Hrefs
        = GetHrefs M doc.anchors reqUrl (!ih)) := by
  constructor
  · intro hs
    simp only [PageFromResponse, PageFromData, LocationFromPage, hs, if_true, ite_true]
    by_cases hc : ContainsString (GetHrefs M doc.anchors reqUrl (!ih))
        (ToAbsUrl M reqUrl loc) = true <;>
      simp [hc]
  · intro hs
    simp [PageFromResponse, PageFromData, LocationFromPage, hs]

/-- C4 witness: the spec's example — status 302, `Location: /new`, base
`http://ex.com/old`, empty body — yields exactly `http://ex.com/new`. -/
theorem PageFromResponse_redirect_href_witness :
    (PageFromResponse simpleUrlModel {} "http://ex.com/old" true 302 "/new").RespInfo.Hrefs
      = ["http://ex.com/new"] := by
  have h := (PageFromResponse_redirect_href simpleUrlModel {} "http://ex.com/old"
    true 302 "/new").1 (by decide)
  rw [h]
  decide

/-- C9: when the request cannot be constructed, `GetPage` returns a nil
page with the error (no `Page.Error` is ever populated); the
Error-field-on-page contract applies to post-construction transport
failures (non-redirect errors from `Client.Do`). -/
theorem GetPage_request_error_contract {ρ σ : Type} (newRequest : Except String ρ)
    (doRequest : ρ → Option σ × Option String) (isRedirectError : String → Bool)
    (mkPage : ρ → Option σ → Page) :
    (∀ e, newRequest = .error e →
      GetPage newRequest doRequest isRedirectError mkPage = (none, some e))
    ∧ (∀ req, newRequest = .ok req → ∀ e, (doRequest req).2 = some e →
        isRedirectError e = false →
        GetPage newRequest doRequest isRedirectError mkPage =
          (some { mkPage req (doRequest req).1 with Error := e }, some e)) := by
  constructor
  · intro e he
    subst he
    rfl
  · intro req hreq e herr hred
    subst hreq
    simp [GetPage, herr, hred]

/-- C9 witness: a failed request construction yields `(none, the error)`. -/
theorem GetPage_request_error_contract_witness :
    GetPage (Except.error "bad url" : Except String Unit)
        (fun _ => ((none : Option Unit), none)) (fun _ => false) (fun _ _ => {})
      = (none, some "bad url") :=
  (GetPage_request_error_contract _ _ _ _).1 "bad url" rfl

/-- C10: `ToAbsUrl` yields `""` exactly when the reference fails to parse,
and otherwise the reference resolved against the base; consequently a
hyperlink extracted from an anchor whose href does not parse is the empty
string. -/
theorem ToAbsUrl_empty_on_parse_failure {α : Type} (M : UrlModel α) (base : α)
    (s : String) :
    (M.parse s = none → ToAbsUrl M base s = "")
    ∧ (∀ u, M.parse s = some u →
        ToAbsUrl M base s = M.render (M.resolveReference base u))
    ∧ (M.parse s = none →
        GetHrefs M [{ href := some s, style := none }] base true = [""]) := by
  refine ⟨?_, ?_, ?_⟩
  · intro h
    simp [ToAbsUrl, h]
  · intro u h
    simp [ToAbsUrl, h]
  · intro h
    simp [GetHrefs, List.foldl, ToAbsUrl, h, contains]

/-- C10 witness: with the toy URL model, `::bad` fails to parse, so
`ToAbsUrl` returns `""` and the anchor contributes `""` to the hyperlinks. -/
theorem ToAbsUrl_empty_on_parse_failure_witness :
    ToAbsUrl simpleUrlModel "http://ex.com/" "::bad" = ""
    ∧ GetHrefs simpleUrlModel [{ href := some "::bad", style := none }]
        "http://ex.com/" true = [""] :=
  ⟨(ToAbsUrl_empty_on_parse_failure simpleUrlModel "http://ex.com/" "::bad").1 (by decide),
   (ToAbsUrl_empty_on_parse_failure simpleUrlModel "http://ex.com/" "::bad").2.2 (by decide)⟩

theorem loadPagesLoop_ok_prefix (before : Option (String → String))
    (after : Option (Page → List String)) (pages : List Page)
    (tail : List (Except String Page)) (m : LinksMap) (c : Nat) :
    loadPagesLoop before after (pages.map Except.ok ++ tail) m c =
      loadPagesLoop before after tail
        (pages.foldl (processLoadedPage before after) m) (c + pages.length) := by
  induction pages generalizing m c with
  | nil => simp [List.foldl]
  | cons p ps ih =>
    simp only [List.map_cons, List.cons_append, loadPagesLoop, List.foldl_cons,
      List.length_cons]
    have harith : c + 1 + ps.length = c + (ps.length + 1) := by omega
    rw [show (List.map Except.ok ps).append tail = List.map Except.ok ps ++ tail from rfl,
      ih, harith]

/-- C7: `LoadPages` applies the hooks to recompute each record's URL and
links, marks the recomputed URL visited, adds the recomputed links with no
domain filtering, and on the first failing file returns that error together
with the number of files fully processed before it; with no failing file it
returns the file count and no error. -/
theorem LoadPages_spec (before : Option (String → String))
    (after : Option (Page → List String)) (pages : List Page) (e : String)
    (rest : List (Except String Page)) (m : LinksMap) (p : Page) (k : String) :
    (LoadPages before after (pages.map Except.ok ++ Except.error e :: rest) m =
      (pages.length, some e, pages.foldl (processLoadedPage before after) m))
    ∧ (LoadPages before after (pages.map Except.ok) m =
      (pages.length, none, pages.foldl (processLoadedPage before after) m))
    ∧ (lookupAssoc (processLoadedPage before after m p) k =
        (if k = (match before with | some fn => fn p.URL | none => p.URL) then some true
        else match lookupAssoc m k with
          | some b => some b
          | none =>
            if k ∈ (match after with | some fn => fn p | none => p.RespInfo.Hrefs)
            then some false else none)) := by
  refine ⟨?_, ?_, ?_⟩
  · rw [LoadPages, loadPagesLoop_ok_prefix]
    simp [loadPagesLoop]
  · have h : pages.map Except.ok = pages.map Except.ok ++ ([] : List (Except String Page)) := by
      simp
    rw [LoadPages, h, loadPagesLoop_ok_prefix]
    simp [loadPagesLoop]
  · simp only [processLoadedPage]
    rw [lookupAssoc_AddAllLinks, lookupAssoc_AddCrawledLinks]
    by_cases hk : k = (match before with | some fn => fn p.URL | none => p.URL)
    · simp [hk]
    · simp [hk]

/-- C7 witness: one good record, then a corrupt file: the good record's URL
is marked visited, its link queued unvisited, the loop stops with the error
and count 1. -/
theorem LoadPages_spec_witness :
    LoadPages none none
        [Except.ok samplePage, Except.error "unexpected end of JSON input"] [] =
      (1, some "unexpected end of JSON input",
        [("http://ex.com/a", true), ("http://ex.com/b", false)]) := by
  have h := (LoadPages_spec none none [samplePage]
    "unexpected end of JSON input" [] [] samplePage "").1
  rw [show ([samplePage].map Except.ok
      ++ Except.error "unexpected end of JSON input" :: ([] : List (Except String Page)))
    = [Except.ok samplePage, Except.error "unexpected end of JSON input"] from rfl] at h
  rw [h]
  decide

theorem lookupAssoc_mem_keys {β : Type} (m : List (String × β)) (u : String) (v : β)
    (h : lookupAssoc m u = some v) : u ∈ m.map Prod.fst := by
  induction m with
  | nil => simp [lookupAssoc] at h
  | cons p rest ih =>
    by_cases hp : p.1 = u
    · simp [hp]
    · rw [lookupAssoc, if_neg hp] at h
      simp [ih h]

theorem nodupKeys_setAssoc {β : Type} (m : List (String × β)) (u : String) (b : β)
    (h : (m.map Prod.fst).Nodup) : ((setAssoc m u b).map Prod.fst).Nodup := by
  induction m with
  | nil => simp [setAssoc]
  | cons p rest ih =>
    by_cases hp : p.1 = u
    · rw [setAssoc, if_pos hp]
      simp only [List.map_cons, List.nodup_cons] at h ⊢
      exact ⟨hp ▸ h.1, h.2⟩
    · rw [setAssoc, if_neg hp]
      simp only [List.map_cons, List.nodup_cons] at h ⊢
      refine ⟨?_, ih h.2⟩
      intro hmem
      rcases List.mem_map.1 hmem with ⟨q, hq, hq1⟩
      rcases mem_setAssoc rest u b q hq with h2 | h2
      · exact hp (hq1 ▸ h2 ▸ rfl)
      · exact h.1 (List.mem_map.2 ⟨q, h2, hq1⟩)

theorem nodupKeys_AddAllLinks (ls : List String) (m : LinksMap)
    (h : (m.map Prod.fst).Nodup) : ((AddAllLinks m ls).map Prod.fst).Nodup := by
  induction ls generalizing m with
  | nil => exact h
  | cons l ls ih =>
    have step : AddAllLinks m (l :: ls) = AddAllLinks (setAssoc m l (IsCrawled m l)) ls := rfl
    rw [step]
    exact ih _ (nodupKeys_setAssoc m l (IsCrawled m l) h)

theorem GetNextLink_lookup (m : LinksMap) (hnodup : (m.map Prod.fst).Nodup)
    (u : String) (h : GetNextLink m = some u) : lookupAssoc m u = some false := by
  induction m with
  | nil => simp [GetNextLink] at h
  | cons p rest ih =>
    cases hp : (p.2 == false) with
    | true =>
      simp only [GetNextLink, List.find?_cons, hp, cond_true] at h
      have h3 : p.1 = u := by simpa using h
      rw [lookupAssoc, if_pos h3]
      simp only [beq_iff_eq] at hp
      rw [hp]
    | false =>
      simp only [GetNextLink, List.find?_cons, hp, cond_false] at h
      simp only [List.map_cons, List.nodup_cons] at hnodup
      have h2 : GetNextLink rest = some u := h
      have hrest : lookupAssoc rest u = some false := ih hnodup.2 h2
      have hu_mem : u ∈ rest.map Prod.fst := lookupAssoc_mem_keys rest u false hrest
      have hpu : ¬ p.1 = u := fun he => hnodup.1 (he ▸ hu_mem)
      rw [lookupAssoc, if_neg hpu]
      exact hrest

theorem lookupAssoc_crawl_preserved (graph : String → List String) (m : LinksMap)
    (u x : String) (hx : lookupAssoc m x = some true) :
    lookupAssoc (AddAllLinks (setAssoc m u true) (graph u)) x = some true := by
  rw [lookupAssoc_AddAllLinks, lookupAssoc_setAssoc]
  by_cases hxu : x = u <;> simp [hxu, hx]

theorem pendingCount_decreases (graph : String → List String) (U : Finset String)
    (m : LinksMap) (u : String) (hnodup : (m.map Prod.fst).Nodup)
    (hkeys : ∀ p ∈ m, p.1 ∈ U) (h : GetNextLink m = some u) :
    pendingCount U (AddAllLinks (setAssoc m u true) (graph u)) < pendingCount U m := by
  have hu_lookup : lookupAssoc m u = some false := GetNextLink_lookup m hnodup u h
  have hu_memU : u ∈ U := by
    rcases List.mem_map.1 (lookupAssoc_mem_keys m u false hu_lookup) with ⟨p, hp, hp1⟩
    exact hp1 ▸ hkeys p hp
  have hu_after : lookupAssoc (AddAllLinks (setAssoc m u true) (graph u)) u = some true := by
    rw [lookupAssoc_AddAllLinks, lookupAssoc_setAssoc]
    simp
  have hsub : U.filter (fun x => lookupAssoc (AddAllLinks (setAssoc m u true) (graph u)) x
        ≠ some true)
      ⊆ U.filter (fun x => lookupAssoc m x ≠ some true) := by
    intro x hx
    rcases Finset.mem_filter.1 hx with ⟨hxU, hxP⟩
    refine Finset.mem_filter.2 ⟨hxU, ?_⟩
    intro hxm
    exact hxP (lookupAssoc_crawl_preserved graph m u x hxm)
  have hu_in : u ∈ U.filter (fun x => lookupAssoc m x ≠ some true) := by
    refine Finset.mem_filter.2 ⟨hu_memU, ?_⟩
    rw [hu_lookup]
    simp
  have hu_out : u ∉ U.filter (fun x => lookupAssoc (AddAllLinks (setAssoc m u true)
      (graph u)) x ≠ some true) := by
    intro hc
    rcases Finset.mem_filter.1 hc with ⟨_, hP⟩
    exact hP hu_after
  exact Finset.card_lt_card ((Finset.ssubset_iff_of_subset hsub).2 ⟨u, hu_in, hu_out⟩)

theorem crawl_terminates_aux (graph : String → List String) (U : Finset String) :
    ∀ N m, pendingCount U m ≤ N → (∀ p ∈ m, p.1 ∈ U) → (m.map Prod.fst).Nodup →
      (∀ u ∈ U, ∀ v ∈ graph u, v ∈ U) →
      crawlTerminatesIn graph N m = true := by
  intro N
  induction N with
  | zero =>
    intro m hpc hkeys hnodup hclosed
    cases hnext : GetNextLink m with
    | none => simp [crawlTerminatesIn, hnext]
    | some u =>
      exfalso
      have hu_lookup : lookupAssoc m u = some false := GetNextLink_lookup m hnodup u hnext
      have hu_memU : u ∈ U := by
        rcases List.mem_map.1 (lookupAssoc_mem_keys m u false hu_lookup) with ⟨p, hp, hp1⟩
        exact hp1 ▸ hkeys p hp
      have hu_in : u ∈ U.filter (fun x => lookupAssoc m x ≠ some true) := by
        refine Finset.mem_filter.2 ⟨hu_memU, ?_⟩
        rw [hu_lookup]
        simp
      have : 0 < pendingCount U m := Finset.card_pos.2 ⟨u, hu_in⟩
      omega
  | succ N ih =>
    intro m hpc hkeys hnodup hclosed
    rw [crawlTerminatesIn]
    cases hnext : GetNextLink m with
    | none => simp [crawlStep, hnext]
    | some u =>
      have hstep : crawlStep graph m = some (AddAllLinks (setAssoc m u true) (graph u)) := by
        rw [crawlStep, hnext]
      rw [hstep]
      have hu_lookup : lookupAssoc m u = some false := GetNextLink_lookup m hnodup u hnext
      have hu_memU : u ∈ U := by
        rcases List.mem_map.1 (lookupAssoc_mem_keys m u false hu_lookup) with ⟨p, hp, hp1⟩
        exact hp1 ▸ hkeys p hp
      apply ih
      · have := pendingCount_decreases graph U m u hnodup hkeys hnext
        omega
      · intro p hp
        rcases mem_AddAllLinks _ _ _ hp with h1 | h1
        · exact hclosed u hu_memU p.1 h1
        · rcases mem_setAssoc _ _ _ _ h1 with h2 | h2
          · exact h2 ▸ hu_memU
          · exact hkeys p h2
      · exact nodupKeys_AddAllLinks _ _ (nodupKeys_setAssoc m u true hnodup)
      · exact hclosed

/-- C8: on a finite, static link graph the `FetchSites` loop terminates:
if every frontier key lies in a finite universe `U` (with the unique keys
of a Go map) closed under the link graph, then after at most
`pendingCount U m` iterations `GetNextLink` reports no link — each
iteration marks its selected URL visited and `AddAllLinks` never turns a
visited entry back, so the count of unvisited universe members strictly
decreases. -/
theorem FetchSites_terminates (graph : String → List String) (U : Finset String)
    (m : LinksMap) (hkeys : ∀ p ∈ m, p.1 ∈ U) (hnodup : (m.map Prod.fst).Nodup)
    (hclosed : ∀ u ∈ U, ∀ v ∈ graph u, v ∈ U) :
    ∃ n, crawlTerminatesIn graph n m = true :=
  ⟨pendingCount U m,
    crawl_terminates_aux graph U (pendingCount U m) m le_rfl hkeys hnodup hclosed⟩

/-- C8 witness: the crawl of a two-page cyclic site from one unvisited
seed terminates. -/
theorem FetchSites_terminates_witness :
    ∃ n, crawlTerminatesIn sampleGraph n [("http://site/a", false)] = true :=
  FetchSites_terminates sampleGraph {"http://site/a", "http://site/b"}
    [("http://site/a", false)] (by decide) (by decide) (by decide)
